import Mathlib

/-!
Shallow embedding of the img-editor repository's transformation core.

Part 1 models the `/api/convert` POST handler (src/unnamed/part_001,
lines 363-439): the request fields with their JS destructuring defaults,
the chain of sharp calls it builds (resize, rotate, modulate, linear,
blur, sharpen, encode) in the order the code chains them, and the
handler's three response shapes (400 missing image, 500 catch-all,
200 with the processed buffer).

Part 2 models the BatchConverter component (src/unnamed/part_000):
the per-file status record, the bulk "all processing" update and the
sequential finishing loop of processAllFiles, and the settings state.
-/

namespace ImgEditor

/-- Output codec selected by the handler's format switch. -/
inductive Codec
  | jpeg
  | png
  | webp
deriving DecidableEq

/-- One sharp call chained onto the instance by the POST handler.
Parameters are carried exactly as the code passes them. -/
inductive Stage
  | resize (w h : Option Int)
  | rotate (angle : Rat)
  | modulateBrightness (b : Rat)
  | modulateSaturation (s : Rat)
  | linearContrast (c : Rat)
  | blur (sigma : Rat)
  | sharpen (s : Rat)
  | encode (c : Codec) (q : Nat)
deriving DecidableEq

/-- The JSON body of a convert request, after the destructuring on line 369
of src/unnamed/part_001: `format` defaults to jpeg and `quality` to 90 when
absent; `width`, `height`, `rotate` and the `filters` fields are optional
with no default. `image` is the base64 payload (absent when the key is
missing). -/
structure ConvertRequest where
  image : Option String := none
  format : Option String := none
  quality : Option Nat := none
  width : Option Int := none
  height : Option Int := none
  rotate : Option Rat := none
  brightness : Option Rat := none
  saturation : Option Rat := none
  contrast : Option Rat := none
  blurR : Option Rat := none
  sharpenR : Option Rat := none
deriving DecidableEq

/-- JS truthiness of an optional number: `undefined` and `0` are falsy. -/
def truthyI : Option Int → Bool
  | none => false
  | some v => v != 0

/-- JS truthiness of an optional (rational-valued) number. -/
def truthyQ : Option Rat → Bool
  | none => false
  | some v => v != 0

/-- Lines 379-384: `if (width || height)` chains
`resize(width, height, \x7b fit: 'inside', withoutEnlargement: true \x7d)`. -/
def resizePart (r : ConvertRequest) : List Stage :=
  if truthyI r.width || truthyI r.height then [Stage.resize r.width r.height] else []

/-- Lines 387-389: `if (rotate)` chains `rotate(rotate)`. -/
def rotatePart (r : ConvertRequest) : List Stage :=
  match r.rotate with
  | none => []
  | some a => if a != 0 then [Stage.rotate a] else []

/-- Lines 392-394: `if (filters.brightness !== undefined)` chains
`modulate(\x7b brightness \x7d)`. -/
def brightnessPart (r : ConvertRequest) : List Stage :=
  match r.brightness with
  | none => []
  | some b => [Stage.modulateBrightness b]

/-- Lines 395-397: `if (filters.saturation !== undefined)` chains
`modulate(\x7b saturation \x7d)`. -/
def saturationPart (r : ConvertRequest) : List Stage :=
  match r.saturation with
  | none => []
  | some s => [Stage.modulateSaturation s]

/-- Lines 398-400: `if (filters.contrast !== undefined)` chains
`linear(contrast, 0)`. -/
def contrastPart (r : ConvertRequest) : List Stage :=
  match r.contrast with
  | none => []
  | some c => [Stage.linearContrast c]

/-- Lines 401-405: `if (filters.blur !== undefined && filters.blur > 0)`
chains `blur(Math.max(0.3, Math.min(1000, filters.blur)))` — the comment in
the source notes sharp requires blur sigma between 0.3 and 1000. -/
def blurPart (r : ConvertRequest) : List Stage :=
  match r.blurR with
  | none => []
  | some b => if 0 < b then [Stage.blur (max (3/10 : Rat) (min 1000 b))] else []

/-- Lines 406-408: `if (filters.sharpen !== undefined && filters.sharpen > 0)`
chains `sharpen(filters.sharpen)`. -/
def sharpenPart (r : ConvertRequest) : List Stage :=
  match r.sharpenR with
  | none => []
  | some s => if 0 < s then [Stage.sharpen s] else []

/-- Lines 392-408 in source order: brightness, saturation, contrast,
blur, sharpen. -/
def filterPart (r : ConvertRequest) : List Stage :=
  brightnessPart r ++ saturationPart r ++ contrastPart r ++ blurPart r ++ sharpenPart r

/-- Lines 411-422: the format switch; `png` and `webp` have their own cases
and everything else (including out-of-enum strings) falls to the
jpeg default branch. -/
def codecOf (f : String) : Codec :=
  if f = "png" then Codec.png else if f = "webp" then Codec.webp else Codec.jpeg

/-- The final encoder call: every branch of the switch passes the same
`quality` value (lines 413, 416, 420), with the destructuring defaults
`format = 'jpeg'`, `quality = 90` applied. -/
def encodePart (r : ConvertRequest) : Stage :=
  Stage.encode (codecOf (r.format.getD "jpeg")) (r.quality.getD 90)

/-- The full chain of sharp calls the handler builds for a request, in
the order the code chains them (lines 378-422): resize, then rotate,
then the filters, then the encoder. -/
def pipelineStages (r : ConvertRequest) : List Stage :=
  resizePart r ++ rotatePart r ++ filterPart r ++ [encodePart r]

/-- Line 371: `if (!image)` — JS falsiness, so a missing key or an empty
string triggers the 400 response. -/
def imageFalsy : Option String → Bool
  | none => true
  | some s => s = ""

/-- A provided resize dimension that sharp rejects: sharp's resize
requires each provided dimension to be a positive integer and throws
otherwise (the external library's documented parameter contract). -/
def badDim : Option Int → Bool
  | none => false
  | some v => v ≤ 0

/-- The resize call throws iff it is reached (line 379's truthiness test)
and a provided dimension is out of domain. -/
def resizeThrows (r : ConvertRequest) : Bool :=
  (truthyI r.width || truthyI r.height) && (badDim r.width || badDim r.height)

/-- Failure inside the try block: an undecodable source buffer or an
out-of-domain resize parameter; either lands in the catch on line 435. -/
def sharpThrows (r : ConvertRequest) (decodable : Bool) : Bool :=
  !decodable || resizeThrows r

/-- The three response shapes of the handler: the 400
`No image data provided`, the catch-all 500 `Failed to process image`,
and the 200 carrying the processed buffer (represented by the stage
chain that produced it). -/
inductive ApiResult
  | noImage
  | processFailed
  | ok (stages : List Stage)
deriving DecidableEq

/-- The POST handler (lines 366-439): check image presence, run the sharp
chain inside try/catch, return the encoded buffer. `decodable` stands for
whether the source bytes decode. -/
def POST (decodable : Bool) (r : ConvertRequest) : ApiResult :=
  if imageFalsy r.image then ApiResult.noImage
  else if sharpThrows r decodable then ApiResult.processFailed
  else ApiResult.ok (pipelineStages r)

/-- Recognise the resize stage. -/
def isResizeStage : Stage → Bool
  | Stage.resize _ _ => true
  | _ => false

/-- Recognise the rotation stage. -/
def isRotateStage : Stage → Bool
  | Stage.rotate _ => true
  | _ => false

/-- Recognise the photometric adjustments the spec groups together:
brightness, saturation, contrast and blur. -/
def isPhotometric : Stage → Bool
  | Stage.modulateBrightness _ => true
  | Stage.modulateSaturation _ => true
  | Stage.linearContrast _ => true
  | Stage.blur _ => true
  | _ => false

/-- Quality argument carried by an encode stage. -/
def stageQuality : Stage → Option Nat
  | Stage.encode _ q => some q
  | _ => none

/-- Codec selected by an encode stage. -/
def stageCodec : Stage → Option Codec
  | Stage.encode c _ => some c
  | _ => none

/-- Every `p`-stage of the list occurs strictly before every `q`-stage. -/
def phaseOrdered (p q : Stage → Bool) (l : List Stage) : Prop :=
  ∀ i j : Fin l.length, p l[i] = true → q l[j] = true → (i : Nat) < (j : Nat)

instance (p q : Stage → Bool) (l : List Stage) : Decidable (phaseOrdered p q l) := by
  unfold phaseOrdered; infer_instance

/-- Modelled from the spec: the per-axis target/source ratio constraining
the scale factor of the external sharp resize call (spec section 4.1:
"fit inside target box, preserve aspect ratio, never upscale beyond
source"); sharp itself is outside the repository. A missing target
dimension imposes no constraint beyond the no-enlargement cap. -/
def dimRatio (src : Nat) (tgt : Option Nat) : Rat :=
  match tgt with
  | none => 1
  | some t => (t : Rat) / (src : Rat)

/-- Modelled from the spec: the common scale factor chosen by fit-inside
with `withoutEnlargement`: the least of 1 and the per-axis ratios. -/
def fitScale (sw sh : Nat) (tw th : Option Nat) : Rat :=
  min 1 (min (dimRatio sw tw) (dimRatio sh th))

/-- Modelled from the spec: output dimensions of the resize stage — each
source dimension scaled by the common factor, rounded, never below one
pixel. -/
def fitDims (sw sh : Nat) (tw th : Option Nat) : Nat × Nat :=
  (max (round ((sw : Rat) * fitScale sw sh tw th)).toNat 1,
   max (round ((sh : Rat) * fitScale sw sh tw th)).toNat 1)

/-- Status field of a batch file
(src/unnamed/part_000 line 13: pending, processing, completed, error). -/
inductive FileStatus
  | pending
  | processing
  | completed
  | error
deriving DecidableEq

/-- One enrolled file of the batch converter (src/unnamed/part_000
lines 9-16); the `File` object and preview URL are opaque to the claims
and elided; `errMsg` is the record's `error` field. -/
structure BatchFile where
  id : Nat
  status : FileStatus
  result : Option String := none
  errMsg : Option String := none
deriving DecidableEq

/-- Line 132 of processAllFiles: one state update mapping every file,
whatever its current status, to `processing`. -/
def markAllProcessing (fs : List BatchFile) : List BatchFile :=
  fs.map fun f => { f with status := FileStatus.processing }

/-- How the state update of `processFile` (lines 104-121) treats one
file of the list: the file whose id matches the finished file becomes
`completed` with the response body as `result` on a successful response,
or `error` with the fixed message on a failure; every other file is left
unchanged. `resp` maps a file id to the response body when the fetch for
that file succeeds, `none` when it fails. -/
def finishAction (resp : Nat → Option String) (tid : Nat) (f : BatchFile) :
    BatchFile :=
  if f.id = tid then
    match resp tid with
    | some body => { f with status := FileStatus.completed, result := some body }
    | none => { f with status := FileStatus.error, errMsg := some "Failed to process" }
  else f

/-- The state update performed when `processFile` finishes one file
(lines 104-121): `setFiles(prev => prev.map(...))`. -/
def finishFile (resp : Nat → Option String) (tid : Nat) (fs : List BatchFile) :
    List BatchFile :=
  fs.map (finishAction resp tid)

/-- The states produced by the sequential loop of processAllFiles
(lines 135-137), one per awaited `processFile`, iterating the enrolled
ids in list order. -/
def runStates (resp : Nat → Option String) : List Nat → List BatchFile →
    List (List BatchFile)
  | [], _ => []
  | tid :: rest, st =>
      let st' := finishFile resp tid st
      st' :: runStates resp rest st'

/-- Every files-state reachable during one call of processAllFiles
(lines 128-140): the state at the click, the bulk all-processing state,
and the state after each file finishes. -/
def runTrace (resp : Nat → Option String) (fs : List BatchFile) :
    List (List BatchFile) :=
  fs :: markAllProcessing fs ::
    runStates resp (fs.map (·.id)) (markAllProcessing fs)

/-- Number of files currently in `processing` state. -/
def countProcessing (fs : List BatchFile) : Nat :=
  fs.countP fun f => f.status = FileStatus.processing

/-- The statuses of a files-state, in list order. -/
def statusesOf (fs : List BatchFile) : List FileStatus :=
  fs.map (·.status)

/-- Terminal status a file with the given id reaches when it is finished
under the fixed response function. -/
def finishedStatus (resp : Nat → Option String) (i : Nat) : FileStatus :=
  match resp i with
  | some _ => FileStatus.completed
  | none => FileStatus.error

/-- Status transitions the spec allows for one item between two observed
states: unchanged, Pending to Processing, or Processing to a terminal
state. -/
def allowedStep (a b : FileStatus) : Prop :=
  a = b ∨ (a = FileStatus.pending ∧ b = FileStatus.processing) ∨
    (a = FileStatus.processing ∧
      (b = FileStatus.completed ∨ b = FileStatus.error))

instance (a b : FileStatus) : Decidable (allowedStep a b) := by
  unfold allowedStep; infer_instance

/-- The shared conversion settings of the batch converter
(src/unnamed/part_000 lines 18-24). -/
structure BatchSettings where
  format : String
  quality : Nat
  width : Option Int := none
  height : Option Int := none
  maintainAspectRatio : Bool
deriving DecidableEq

/-- Initial settings state (lines 28-32). -/
def defaultBatchSettings : BatchSettings :=
  { format := "webp", quality := 85, maintainAspectRatio := true }

/-- One settings mutation issued by the settings controls
(lines 192-247): each control overwrites one field. -/
inductive SettingsUpdate
  | setFormat (f : String)
  | setQuality (q : Nat)
  | setWidth (w : Option Int)
  | setHeight (h : Option Int)
  | setAspect (b : Bool)
deriving DecidableEq

/-- Effect of a settings control's onChange handler on the settings
state. -/
def applySettingsUpdate (u : SettingsUpdate) (s : BatchSettings) : BatchSettings :=
  match u with
  | SettingsUpdate.setFormat f => { s with format := f }
  | SettingsUpdate.setQuality q => { s with quality := q }
  | SettingsUpdate.setWidth w => { s with width := w }
  | SettingsUpdate.setHeight h => { s with height := h }
  | SettingsUpdate.setAspect b => { s with maintainAspectRatio := b }

/-- What happens when a settings control is changed while `isProcessing`
has the given value: the onChange handlers (lines 194, 210, 221, 231,
243) call setSettings unconditionally — none of the settings inputs is
disabled during processing and no error path exists, so the update is
always applied. -/
def settingsChange (isProcessing : Bool) (u : SettingsUpdate) (s : BatchSettings) :
    Except String BatchSettings :=
  Except.ok (applySettingsUpdate u s)

/-- The request body processFile builds for one item (lines 95-101):
the item's base64 bytes plus the format, quality, width and height of
the settings captured by the closure of the run. -/
def requestFor (s : BatchSettings) (base64 : String) : ConvertRequest :=
  { image := some base64, format := some s.format, quality := some s.quality,
    width := s.width, height := s.height }

/-- The requests issued during one run: the loop of processAllFiles calls
the `processFile` of the render that started the run, whose closure holds
the settings from that render, so every item's request is built from the
same run-start settings. -/
def runRequests (s : BatchSettings) (items : List String) : List ConvertRequest :=
  items.map (requestFor s)

/-- The per-file outcome of processFile, as a function of the file alone:
on a successful response the file becomes completed with the body as its
result, otherwise it becomes error with the fixed message (the same
update finishFile applies to the matching file). -/
def finishOutcome (resp : Nat → Option String) (f : BatchFile) : BatchFile :=
  match resp f.id with
  | some body => { f with status := FileStatus.completed, result := some body }
  | none => { f with status := FileStatus.error, errMsg := some "Failed to process" }

/-- The files-state after the sequential loop has finished the given ids
in order — the final state of the run. -/
def runFinal (resp : Nat → Option String) : List Nat → List BatchFile →
    List BatchFile
  | [], st => st
  | tid :: rest, st => runFinal resp rest (finishFile resp tid st)

/-- Invariant holding from the bulk update onward: every file is either
still `processing` or already carries the terminal status its response
determines. -/
def postBulkInv (resp : Nat → Option String) (st : List BatchFile) : Prop :=
  ∀ f ∈ st, f.status = FileStatus.processing ∨
    f.status = finishedStatus resp f.id

lemma mem_resizePart {r : ConvertRequest} {s : Stage} (hs : s ∈ resizePart r) :
    ∃ w h, s = Stage.resize w h := by
  unfold resizePart at hs
  split at hs
  · rw [List.mem_singleton] at hs; exact ⟨_, _, hs⟩
  · simp at hs

lemma mem_rotatePart {r : ConvertRequest} {s : Stage} (hs : s ∈ rotatePart r) :
    ∃ a, s = Stage.rotate a := by
  unfold rotatePart at hs
  split at hs
  · simp at hs
  · split at hs
    · rw [List.mem_singleton] at hs; exact ⟨_, hs⟩
    · simp at hs

lemma mem_brightnessPart {r : ConvertRequest} {s : Stage}
    (hs : s ∈ brightnessPart r) : ∃ b, s = Stage.modulateBrightness b := by
  unfold brightnessPart at hs
  split at hs
  · simp at hs
  · rw [List.mem_singleton] at hs; exact ⟨_, hs⟩

lemma mem_saturationPart {r : ConvertRequest} {s : Stage}
    (hs : s ∈ saturationPart r) : ∃ b, s = Stage.modulateSaturation b := by
  unfold saturationPart at hs
  split at hs
  · simp at hs
  · rw [List.mem_singleton] at hs; exact ⟨_, hs⟩

lemma mem_contrastPart {r : ConvertRequest} {s : Stage}
    (hs : s ∈ contrastPart r) : ∃ b, s = Stage.linearContrast b := by
  unfold contrastPart at hs
  split at hs
  · simp at hs
  · rw [List.mem_singleton] at hs; exact ⟨_, hs⟩

lemma mem_blurPart {r : ConvertRequest} {s : Stage}
    (hs : s ∈ blurPart r) : ∃ b, s = Stage.blur b := by
  unfold blurPart at hs
  split at hs
  · simp at hs
  · split at hs
    · rw [List.mem_singleton] at hs; exact ⟨_, hs⟩
    · simp at hs

lemma mem_sharpenPart {r : ConvertRequest} {s : Stage}
    (hs : s ∈ sharpenPart r) : ∃ b, s = Stage.sharpen b := by
  unfold sharpenPart at hs
  split at hs
  · simp at hs
  · split at hs
    · rw [List.mem_singleton] at hs; exact ⟨_, hs⟩
    · simp at hs

lemma mem_filterPart {r : ConvertRequest} {s : Stage} (hs : s ∈ filterPart r) :
    isResizeStage s = false ∧ isRotateStage s = false := by
  unfold filterPart at hs
  simp only [List.mem_append] at hs
  rcases hs with ((((hs | hs) | hs) | hs) | hs)
  · obtain ⟨b, rfl⟩ := mem_brightnessPart hs; exact ⟨rfl, rfl⟩
  · obtain ⟨b, rfl⟩ := mem_saturationPart hs; exact ⟨rfl, rfl⟩
  · obtain ⟨b, rfl⟩ := mem_contrastPart hs; exact ⟨rfl, rfl⟩
  · obtain ⟨b, rfl⟩ := mem_blurPart hs; exact ⟨rfl, rfl⟩
  · obtain ⟨b, rfl⟩ := mem_sharpenPart hs; exact ⟨rfl, rfl⟩

lemma phaseOrdered_append {p q : Stage → Bool} {a b : List Stage}
    (ha : ∀ s ∈ a, q s = false) (hb : ∀ s ∈ b, p s = false) :
    phaseOrdered p q (a ++ b) := by
  intro i j hp hq
  simp only [Fin.getElem_fin] at hp hq
  have hia : (i : Nat) < a.length := by
    by_contra hge
    push_neg at hge
    rw [List.getElem_append_right hge] at hp
    rw [hb _ (List.getElem_mem _)] at hp
    exact Bool.false_ne_true hp
  have hja : a.length ≤ (j : Nat) := by
    by_contra hlt
    push_neg at hlt
    rw [List.getElem_append_left hlt] at hq
    rw [ha _ (List.getElem_mem _)] at hq
    exact Bool.false_ne_true hq
  omega

lemma round_le_round {x y : Rat} (h : x ≤ y) : round x ≤ round y := by
  rw [round_eq, round_eq]
  exact Int.floor_le_floor (by linarith)

lemma toNat_round_le {x : Rat} {n : Nat} (h : x ≤ (n : Rat)) :
    (round x).toNat ≤ n := by
  rw [Int.toNat_le, round_eq, Int.floor_le_iff]
  push_cast
  linarith

/-- C1 counterexample: the spec's order puts the photometric adjustments
before resize ("resize is applied after the photometric adjustments"),
but for a request with a target width and a blur the handler chains
resize before the blur, so the claimed ordering fails. -/
theorem convert_photometric_not_before_resize :
    ¬ phaseOrdered isPhotometric isResizeStage
        (pipelineStages { image := some "i", width := some 100, blurR := some 2 }) := by
  decide

/-- C1 amended: the POST handler chains the stages in the order resize,
then rotation, then the photometric adjustments, with the format encoder
always last — resize comes before, not after, the photometric
adjustments, and no crop stage exists in the API pipeline. -/
theorem convert_pipeline_stage_order (r : ConvertRequest) :
    phaseOrdered isResizeStage isRotateStage (pipelineStages r) ∧
    phaseOrdered isResizeStage isPhotometric (pipelineStages r) ∧
    phaseOrdered isRotateStage isPhotometric (pipelineStages r) ∧
    (pipelineStages r).getLast? = some (encodePart r) := by
  have hres_rot : ∀ s ∈ resizePart r, isRotateStage s = false := by
    intro s hs; obtain ⟨w, h, rfl⟩ := mem_resizePart hs; rfl
  have hres_pho : ∀ s ∈ resizePart r, isPhotometric s = false := by
    intro s hs; obtain ⟨w, h, rfl⟩ := mem_resizePart hs; rfl
  have hrot_res : ∀ s ∈ rotatePart r, isResizeStage s = false := by
    intro s hs; obtain ⟨a, rfl⟩ := mem_rotatePart hs; rfl
  have hrot_pho : ∀ s ∈ rotatePart r, isPhotometric s = false := by
    intro s hs; obtain ⟨a, rfl⟩ := mem_rotatePart hs; rfl
  have hrest_res : ∀ s ∈ rotatePart r ++ (filterPart r ++ [encodePart r]),
      isResizeStage s = false := by
    intro s hs
    rcases List.mem_append.mp hs with hs | hs
    · exact hrot_res s hs
    rcases List.mem_append.mp hs with hs | hs
    · exact (mem_filterPart hs).1
    · rw [List.mem_singleton] at hs; subst hs; rfl
  have hrest_rot : ∀ s ∈ filterPart r ++ [encodePart r],
      isRotateStage s = false := by
    intro s hs
    rcases List.mem_append.mp hs with hs | hs
    · exact (mem_filterPart hs).2
    · rw [List.mem_singleton] at hs; subst hs; rfl
  have hsplit1 : pipelineStages r =
      resizePart r ++ (rotatePart r ++ (filterPart r ++ [encodePart r])) := by
    simp [pipelineStages, List.append_assoc]
  have hsplit2 : pipelineStages r =
      (resizePart r ++ rotatePart r) ++ (filterPart r ++ [encodePart r]) := by
    simp [pipelineStages, List.append_assoc]
  refine ⟨?_, ?_, ?_, ?_⟩
  · rw [hsplit1]
    exact phaseOrdered_append hres_rot hrest_res
  · rw [hsplit1]
    exact phaseOrdered_append hres_pho hrest_res
  · rw [hsplit2]
    refine phaseOrdered_append ?_ ?_
    · intro s hs
      rcases List.mem_append.mp hs with hs | hs
      · exact hres_pho s hs
      · exact hrot_pho s hs
    · intro s hs
      rcases List.mem_append.mp hs with hs | hs
      · exact (mem_filterPart hs).2
      · rw [List.mem_singleton] at hs; subst hs; rfl
  · show (resizePart r ++ rotatePart r ++ filterPart r ++ [encodePart r]).getLast? =
      some (encodePart r)
    exact List.getLast?_concat _

/-- C4 counterexample: a request with a negative width is answered with
the same generic catch-all failure response as a corrupt image — not
with a distinct validation error issued before processing. -/
theorem convert_negative_width_generic_failure :
    POST true { image := some "img", width := some (-100) } =
        ApiResult.processFailed ∧
    POST true { image := some "img", width := some (-100) } ≠
        ApiResult.noImage ∧
    POST false { image := some "img" } = ApiResult.processFailed := by
  decide

/-- C4 amended: the only check the handler performs before invoking sharp
is that image data is present (the 400 response happens exactly when the
image field is falsy); an out-of-domain resize parameter instead throws
inside the sharp chain and surfaces as the generic 500 response. -/
theorem convert_only_image_presence_validated (d : Bool) (r : ConvertRequest) :
    (POST d r = ApiResult.noImage ↔ imageFalsy r.image = true) ∧
    (imageFalsy r.image = false → resizeThrows r = true →
      POST d r = ApiResult.processFailed) := by
  constructor
  · unfold POST
    constructor
    · intro h
      by_contra hx
      rw [Bool.not_eq_true] at hx
      rw [hx] at h
      simp only [Bool.false_eq_true, if_false] at h
      split at h <;> simp_all
    · intro h
      rw [h]
      simp
  · intro himg hres
    unfold POST
    rw [himg]
    have : sharpThrows r d = true := by
      unfold sharpThrows
      rw [hres, Bool.or_true]
    simp [this]

/-- C4 witness: the amended theorem applied to the negative-width
request. -/
theorem convert_only_image_presence_validated_holds :
    POST true { image := some "img", width := some (-100) } =
      ApiResult.processFailed :=
  (convert_only_image_presence_validated true
      { image := some "img", width := some (-100) }).2 (by decide) (by decide)

/-- C6: the resize stage is chained with the request's target dimensions,
and the fit-inside, no-enlargement semantics never exceeds either target
dimension, never exceeds the source dimensions, and returns the source
dimensions unchanged when both targets exceed the source. -/
theorem convert_resize_fit_never_upscales (r : ConvertRequest)
    (sw sh tw th : Nat) (hsw : 0 < sw) (hsh : 0 < sh) (htw : 0 < tw)
    (hth : 0 < th) (hw : r.width = some (tw : Int))
    (hh : r.height = some (th : Int)) :
    resizePart r = [Stage.resize (some (tw : Int)) (some (th : Int))] ∧
    (fitDims sw sh (some tw) (some th)).1 ≤ tw ∧
    (fitDims sw sh (some tw) (some th)).2 ≤ th ∧
    (fitDims sw sh (some tw) (some th)).1 ≤ sw ∧
    (fitDims sw sh (some tw) (some th)).2 ≤ sh ∧
    (sw < tw → sh < th → fitDims sw sh (some tw) (some th) = (sw, sh)) := by
  have hswQ : (0 : Rat) < sw := by exact_mod_cast hsw
  have hshQ : (0 : Rat) < sh := by exact_mod_cast hsh
  have hs1 : fitScale sw sh (some tw) (some th) ≤ 1 := min_le_left _ _
  have hstw : fitScale sw sh (some tw) (some th) ≤ (tw : Rat) / (sw : Rat) :=
    le_trans (min_le_right _ _) (min_le_left _ _)
  have hsth : fitScale sw sh (some tw) (some th) ≤ (th : Rat) / (sh : Rat) :=
    le_trans (min_le_right _ _) (min_le_right _ _)
  have hbw : (sw : Rat) * fitScale sw sh (some tw) (some th) ≤ (tw : Rat) := by
    calc (sw : Rat) * fitScale sw sh (some tw) (some th)
        ≤ (sw : Rat) * ((tw : Rat) / (sw : Rat)) :=
          mul_le_mul_of_nonneg_left hstw hswQ.le
      _ = (tw : Rat) := by field_simp
  have hbh : (sh : Rat) * fitScale sw sh (some tw) (some th) ≤ (th : Rat) := by
    calc (sh : Rat) * fitScale sw sh (some tw) (some th)
        ≤ (sh : Rat) * ((th : Rat) / (sh : Rat)) :=
          mul_le_mul_of_nonneg_left hsth hshQ.le
      _ = (th : Rat) := by field_simp
  have hsw' : (sw : Rat) * fitScale sw sh (some tw) (some th) ≤ (sw : Rat) := by
    calc (sw : Rat) * fitScale sw sh (some tw) (some th)
        ≤ (sw : Rat) * 1 := mul_le_mul_of_nonneg_left hs1 hswQ.le
      _ = (sw : Rat) := mul_one _
  have hsh' : (sh : Rat) * fitScale sw sh (some tw) (some th) ≤ (sh : Rat) := by
    calc (sh : Rat) * fitScale sw sh (some tw) (some th)
        ≤ (sh : Rat) * 1 := mul_le_mul_of_nonneg_left hs1 hshQ.le
      _ = (sh : Rat) := mul_one _
  refine ⟨?_, ?_, ?_, ?_, ?_, ?_⟩
  · unfold resizePart
    rw [hw, hh]
    rw [if_pos]
    show (truthyI (some (tw : Int)) || truthyI (some (th : Int))) = true
    unfold truthyI
    simp only [bne_iff_ne, ne_eq, Bool.or_eq_true, decide_eq_true_eq]
    left
    exact_mod_cast Nat.pos_iff_ne_zero.mp htw
  · exact Nat.max_le.mpr ⟨toNat_round_le hbw, htw⟩
  · exact Nat.max_le.mpr ⟨toNat_round_le hbh, hth⟩
  · exact Nat.max_le.mpr ⟨toNat_round_le hsw', hsw⟩
  · exact Nat.max_le.mpr ⟨toNat_round_le hsh', hsh⟩
  · intro h5 h6
    have hscale : fitScale sw sh (some tw) (some th) = 1 := by
      unfold fitScale dimRatio
      refine min_eq_left (le_min ?_ ?_)
      · exact ((one_lt_div hswQ).mpr (by exact_mod_cast h5)).le
      · exact ((one_lt_div hshQ).mpr (by exact_mod_cast h6)).le
    unfold fitDims
    rw [hscale]
    simp only [mul_one, round_natCast, Int.toNat_natCast, Prod.mk.injEq]
    exact ⟨Nat.max_eq_left hsw, Nat.max_eq_left hsh⟩

/-- C6 witness: a 4 by 3 source with an 8 by 6 target is untouched;
the fit dimensions never exceed the targets. -/
theorem convert_resize_fit_never_upscales_holds :
    fitDims 4 3 (some 8) (some 6) = (4, 3) ∧
    (fitDims 4 3 (some 8) (some 6)).1 ≤ 8 ∧
    resizePart { width := some 8, height := some 6 } =
      [Stage.resize (some 8) (some 6)] := by
  have h := convert_resize_fit_never_upscales
    { width := some 8, height := some 6 } 4 3 8 6
    (by decide) (by decide) (by decide) (by decide) rfl rfl
  exact ⟨h.2.2.2.2.2 (by decide) (by decide), h.2.1, h.1⟩

/-- C7: a positive blur below the sigma minimum 0.3 is clamped upward to
0.3 (the general clamp is max 0.3 (min 1000 blur)), while an absent or
zero blur chains no blur call at all. -/
theorem convert_blur_clamped_or_skipped (r : ConvertRequest) (b : Rat) :
    (r.blurR = some b → 0 < b →
      blurPart r = [Stage.blur (max (3/10 : Rat) (min 1000 b))]) ∧
    (r.blurR = some b → 0 < b → b < 3/10 →
      blurPart r = [Stage.blur (3/10 : Rat)]) ∧
    (r.blurR = none → blurPart r = []) ∧
    (r.blurR = some 0 → blurPart r = []) := by
  refine ⟨?_, ?_, ?_, ?_⟩
  · intro h hpos
    unfold blurPart
    rw [h]
    show (if 0 < b then [Stage.blur (max (3/10 : Rat) (min 1000 b))] else []) = _
    rw [if_pos hpos]
  · intro h hpos hsmall
    unfold blurPart
    rw [h]
    show (if 0 < b then [Stage.blur (max (3/10 : Rat) (min 1000 b))] else []) = _
    rw [if_pos hpos]
    have hmin : min (1000 : Rat) b = b := min_eq_right (by linarith)
    have hmax : max (3/10 : Rat) (min 1000 b) = 3/10 := by
      rw [hmin]; exact max_eq_left hsmall.le
    rw [hmax]
  · intro h
    unfold blurPart
    rw [h]
  · intro h
    unfold blurPart
    rw [h]
    show (if 0 < (0 : Rat) then [Stage.blur (max (3/10 : Rat) (min 1000 0))] else []) = _
    rw [if_neg (lt_irrefl (0 : Rat))]

/-- C7 witness: blur 0.2 is clamped to sigma 0.3; an untouched request
chains no blur. -/
theorem convert_blur_clamped_or_skipped_holds :
    blurPart { blurR := some (1/5) } = [Stage.blur (3/10 : Rat)] ∧
    blurPart {} = [] := by
  constructor
  · exact (convert_blur_clamped_or_skipped { blurR := some (1/5) } (1/5)).2.1
      rfl (by norm_num) (by norm_num)
  · exact (convert_blur_clamped_or_skipped {} 0).2.2.1 rfl

/-- C9 counterexample: the encoder call for png is not independent of
the quality value — the handler passes quality to the png encoder just
as for jpeg and webp, so two png requests differing only in quality
produce different encoder invocations. -/
theorem convert_png_encode_depends_on_quality :
    encodePart { format := some "png", quality := some 50 } ≠
      encodePart { format := some "png", quality := some 90 } := by
  decide

/-- C9 amended: every branch of the format switch passes the request's
quality (default 90) to the selected encoder — jpeg and webp apply it
directly and png receives it identically, with no png special case
dropping it. -/
theorem convert_quality_passed_to_all_encoders (r : ConvertRequest) :
    stageQuality (encodePart r) = some (r.quality.getD 90) ∧
    (r.format = some "png" → stageCodec (encodePart r) = some Codec.png) ∧
    (r.format = some "webp" → stageCodec (encodePart r) = some Codec.webp) ∧
    (r.format = some "jpeg" ∨ r.format = none →
      stageCodec (encodePart r) = some Codec.jpeg) := by
  refine ⟨rfl, ?_, ?_, ?_⟩
  · intro h
    unfold encodePart
    rw [h]
    rfl
  · intro h
    unfold encodePart
    rw [h]
    rfl
  · rintro (h | h) <;>
      · unfold encodePart
        rw [h]
        rfl

/-- C9 witness: the amended theorem at a concrete png request — the
quality 70 reaches the png encoder. -/
theorem convert_quality_passed_to_all_encoders_holds :
    stageQuality (encodePart { format := some "png", quality := some 70 }) =
      some 70 ∧
    stageCodec (encodePart { format := some "png", quality := some 70 }) =
      some Codec.png := by
  have h := convert_quality_passed_to_all_encoders
    { format := some "png", quality := some 70 }
  exact ⟨h.1, h.2.1 rfl⟩

/-- C10: a format value outside the documented enum (or an absent one)
never causes an error — the response is the same as with the default
format, and the encode stage is the jpeg encoder via the switch's
default branch. -/
theorem convert_unknown_format_encodes_jpeg (d : Bool) (r : ConvertRequest)
    (fmt : String) (h1 : fmt ≠ "png") (h2 : fmt ≠ "webp") :
    POST d { r with format := some fmt } = POST d { r with format := none } ∧
    encodePart { r with format := some fmt } =
      Stage.encode Codec.jpeg (r.quality.getD 90) := by
  have hc : codecOf fmt = Codec.jpeg := by
    unfold codecOf
    rw [if_neg h1, if_neg h2]
  have he : encodePart { r with format := some fmt } =
      Stage.encode Codec.jpeg (r.quality.getD 90) := by
    show Stage.encode (codecOf fmt) (r.quality.getD 90) =
      Stage.encode Codec.jpeg (r.quality.getD 90)
    rw [hc]
  refine ⟨?_, he⟩
  have hp : pipelineStages { r with format := some fmt } =
      pipelineStages { r with format := none } := by
    unfold pipelineStages
    rw [he]
    rfl
  unfold POST
  rw [hp]
  rfl

/-- C10 witness: a request with format gif gets the same answer as one
with no format, and its encode stage is jpeg at the default quality. -/
theorem convert_unknown_format_encodes_jpeg_holds :
    POST true { image := some "img", format := some "gif" } =
      POST true { image := some "img" } ∧
    encodePart { image := some "img", format := some "gif" } =
      Stage.encode Codec.jpeg 90 :=
  convert_unknown_format_encodes_jpeg true { image := some "img" } "gif"
    (by decide) (by decide)

lemma map_eq_self_of {α : Type*} {f : α → α} {l : List α}
    (h : ∀ a ∈ l, f a = a) : l.map f = l := by
  induction l with
  | nil => rfl
  | cons a t ih =>
    rw [List.map_cons, h a (List.mem_cons_self a t),
      ih fun x hx => h x (List.mem_cons_of_mem a hx)]

lemma finishAction_of_ne (resp : Nat → Option String) (tid : Nat)
    (f : BatchFile) (h : f.id ≠ tid) : finishAction resp tid f = f := by
  unfold finishAction
  rw [if_neg h]

lemma finishAction_of_eq (resp : Nat → Option String) (tid : Nat)
    (f : BatchFile) (h : f.id = tid) :
    finishAction resp tid f = finishOutcome resp f := by
  unfold finishAction finishOutcome
  rw [if_pos h, h]

lemma finishOutcome_id (resp : Nat → Option String) (f : BatchFile) :
    (finishOutcome resp f).id = f.id := by
  unfold finishOutcome
  cases resp f.id <;> rfl

lemma finishOutcome_status (resp : Nat → Option String) (f : BatchFile) :
    (finishOutcome resp f).status = finishedStatus resp f.id := by
  unfold finishOutcome finishedStatus
  cases resp f.id <;> rfl

lemma finishOutcome_markProc (resp : Nat → Option String) (f : BatchFile) :
    finishOutcome resp { f with status := FileStatus.processing } =
      finishOutcome resp f := by
  obtain ⟨i, s, res, err⟩ := f
  cases hr : resp i <;> simp [finishOutcome, hr]

lemma finishFile_map_id (resp : Nat → Option String) (tid : Nat)
    (st : List BatchFile) :
    (finishFile resp tid st).map (·.id) = st.map (·.id) := by
  unfold finishFile
  rw [List.map_map]
  refine List.map_congr_left ?_
  intro f _
  by_cases hf : f.id = tid
  · show (finishAction resp tid f).id = f.id
    rw [finishAction_of_eq resp tid f hf]
    exact finishOutcome_id resp f
  · show (finishAction resp tid f).id = f.id
    rw [finishAction_of_ne resp tid f hf]

lemma markAll_map_id (fs : List BatchFile) :
    (markAllProcessing fs).map (·.id) = fs.map (·.id) := by
  unfold markAllProcessing
  rw [List.map_map]
  rfl

lemma finishFile_not_mem (resp : Nat → Option String) (tid : Nat)
    (st : List BatchFile) (h : ∀ f ∈ st, f.id ≠ tid) :
    finishFile resp tid st = st := by
  unfold finishFile
  refine map_eq_self_of ?_
  intro f hf
  exact finishAction_of_ne resp tid f (h f hf)

lemma countProcessing_markAll (fs : List BatchFile) :
    countProcessing (markAllProcessing fs) = fs.length := by
  induction fs with
  | nil => rfl
  | cons a t ih =>
    show countProcessing ({ a with status := FileStatus.processing } ::
      markAllProcessing t) = t.length + 1
    unfold countProcessing at ih ⊢
    rw [List.countP_cons, ih]
    rfl

lemma countProcessing_finishFile (resp : Nat → Option String) (tid : Nat) :
    ∀ st : List BatchFile, (st.map (·.id)).Nodup →
    (∃ f ∈ st, f.id = tid ∧ f.status = FileStatus.processing) →
    countProcessing (finishFile resp tid st) = countProcessing st - 1 := by
  intro st
  induction st with
  | nil =>
    intro _ hex
    obtain ⟨f, hf, _⟩ := hex
    exact absurd hf (List.not_mem_nil f)
  | cons a t ih =>
    intro hnd hex
    rw [List.map_cons, List.nodup_cons] at hnd
    show countProcessing (finishAction resp tid a :: finishFile resp tid t) = _
    by_cases ha : a.id = tid
    · have htail : ∀ f ∈ t, f.id ≠ tid := by
        intro f hf hc
        exact hnd.1 (List.mem_map.mpr ⟨f, hf, by rw [hc, ha]⟩)
      have hastat : a.status = FileStatus.processing := by
        obtain ⟨f, hf, hfid, hfst⟩ := hex
        rcases List.mem_cons.mp hf with rfl | hft
        · exact hfst
        · exact absurd hfid (htail f hft)
      rw [finishFile_not_mem resp tid t htail]
      unfold countProcessing
      rw [List.countP_cons, List.countP_cons]
      have h1 : decide ((finishAction resp tid a).status =
          FileStatus.processing) = false := by
        rw [finishAction_of_eq resp tid a ha, finishOutcome_status]
        unfold finishedStatus
        cases resp a.id <;> rfl
      have h2 : decide (a.status = FileStatus.processing) = true := by
        rw [hastat]
        rfl
      rw [h1, h2]
      simp
    · rw [finishAction_of_ne resp tid a ha]
      have hex' : ∃ f ∈ t, f.id = tid ∧ f.status = FileStatus.processing := by
        obtain ⟨f, hf, hfid, hfst⟩ := hex
        rcases List.mem_cons.mp hf with rfl | hft
        · exact absurd hfid ha
        · exact ⟨f, hft, hfid, hfst⟩
      have hpos : 0 < countProcessing t := by
        obtain ⟨f, hft, _, hfst⟩ := hex'
        exact List.countP_pos_iff.mpr ⟨f, hft, by rw [hfst]; rfl⟩
      have hrec := ih hnd.2 hex'
      unfold countProcessing at hrec hpos ⊢
      rw [List.countP_cons, List.countP_cons, hrec]
      split <;> omega

lemma runStates_counts (resp : Nat → Option String) :
    ∀ (tids : List Nat) (st : List BatchFile),
    (st.map (·.id)).Nodup → tids.Nodup →
    (∀ tid ∈ tids, ∃ f ∈ st, f.id = tid ∧ f.status = FileStatus.processing) →
    (runStates resp tids st).map countProcessing =
      (List.range tids.length).map fun k => countProcessing st - (k + 1) := by
  intro tids
  induction tids with
  | nil =>
    intro st _ _ _
    rfl
  | cons t rest ih =>
    intro st hnd hnt hmem
    rw [List.nodup_cons] at hnt
    have hdec : countProcessing (finishFile resp t st) = countProcessing st - 1 :=
      countProcessing_finishFile resp t st hnd (hmem t (List.mem_cons_self t rest))
    have hnd' : ((finishFile resp t st).map (·.id)).Nodup := by
      rw [finishFile_map_id]
      exact hnd
    have hmem' : ∀ tid ∈ rest, ∃ f ∈ finishFile resp t st,
        f.id = tid ∧ f.status = FileStatus.processing := by
      intro tid htid
      obtain ⟨f, hf, hfid, hfst⟩ := hmem tid (List.mem_cons_of_mem t htid)
      refine ⟨f, ?_, hfid, hfst⟩
      have hne : f.id ≠ t := by
        rw [hfid]
        intro hc
        exact hnt.1 (hc ▸ htid)
      exact List.mem_map.mpr ⟨f, hf, finishAction_of_ne resp t f hne⟩
    show countProcessing (finishFile resp t st) ::
        (runStates resp rest (finishFile resp t st)).map countProcessing = _
    rw [ih (finishFile resp t st) hnd' hnt.2 hmem', hdec,
      List.length_cons, List.range_succ_eq_map, List.map_cons, List.map_map]
    congr 1
    refine List.map_congr_left ?_
    intro k _
    show countProcessing st - 1 - (k + 1) = countProcessing st - (k + 1 + 1)
    omega

lemma runStates_last (resp : Nat → Option String) :
    ∀ (tids : List Nat) (st : List BatchFile),
    (st :: runStates resp tids st).getLast? = some (runFinal resp tids st) := by
  intro tids
  induction tids with
  | nil =>
    intro st
    rfl
  | cons t rest ih =>
    intro st
    show (st :: (finishFile resp t st ::
      runStates resp rest (finishFile resp t st))).getLast? = _
    rw [List.getLast?_cons_cons]
    exact ih (finishFile resp t st)

lemma runFinal_map (resp : Nat → Option String) :
    ∀ (tids : List Nat), tids.Nodup → ∀ st : List BatchFile,
    runFinal resp tids st =
      st.map fun f => if f.id ∈ tids then finishOutcome resp f else f := by
  intro tids
  induction tids with
  | nil =>
    intro _ st
    rw [show runFinal resp [] st = st from rfl]
    refine (map_eq_self_of ?_).symm
    intro f _
    rw [if_neg (List.not_mem_nil f.id)]
  | cons t rest ih =>
    intro hnd st
    rw [List.nodup_cons] at hnd
    show runFinal resp rest (finishFile resp t st) = _
    rw [ih hnd.2 (finishFile resp t st)]
    unfold finishFile
    rw [List.map_map]
    refine List.map_congr_left ?_
    intro f _
    by_cases hft : f.id = t
    · show (if (finishAction resp t f).id ∈ rest
          then finishOutcome resp (finishAction resp t f)
          else finishAction resp t f) = _
      rw [finishAction_of_eq resp t f hft]
      rw [if_neg (by rw [finishOutcome_id, hft]; exact hnd.1)]
      rw [if_pos (by rw [hft]; exact List.mem_cons_self t rest)]
    · show (if (finishAction resp t f).id ∈ rest
          then finishOutcome resp (finishAction resp t f)
          else finishAction resp t f) = _
      rw [finishAction_of_ne resp t f hft]
      by_cases hfr : f.id ∈ rest
      · rw [if_pos hfr, if_pos (List.mem_cons_of_mem t hfr)]
      · rw [if_neg hfr, if_neg (by
          intro hc
          rcases List.mem_cons.mp hc with hc | hc
          · exact hft hc
          · exact hfr hc)]

lemma forall2_statuses_map {st : List BatchFile} {g : BatchFile → BatchFile}
    (h : ∀ f ∈ st, allowedStep f.status (g f).status) :
    List.Forall₂ allowedStep (statusesOf st) (statusesOf (st.map g)) := by
  induction st with
  | nil => exact List.Forall₂.nil
  | cons a t ih =>
    exact List.Forall₂.cons (h a (List.mem_cons_self a t))
      (ih fun f hf => h f (List.mem_cons_of_mem a hf))

lemma postBulkInv_markAll (resp : Nat → Option String) (fs : List BatchFile) :
    postBulkInv resp (markAllProcessing fs) := by
  intro f hf
  obtain ⟨f0, _, rfl⟩ := List.mem_map.mp hf
  left
  rfl

lemma postBulkInv_finish (resp : Nat → Option String) (tid : Nat)
    (st : List BatchFile) (h : postBulkInv resp st) :
    postBulkInv resp (finishFile resp tid st) := by
  intro f hf
  obtain ⟨f0, hf0, rfl⟩ := List.mem_map.mp hf
  by_cases hid : f0.id = tid
  · right
    rw [finishAction_of_eq resp tid f0 hid, finishOutcome_status,
      finishOutcome_id]
  · rw [finishAction_of_ne resp tid f0 hid]
    exact h f0 hf0

lemma finish_step_allowed (resp : Nat → Option String) (tid : Nat)
    (st : List BatchFile) (h : postBulkInv resp st) :
    List.Forall₂ allowedStep (statusesOf st)
      (statusesOf (finishFile resp tid st)) := by
  refine forall2_statuses_map ?_
  intro f hf
  by_cases hid : f.id = tid
  · rw [finishAction_of_eq resp tid f hid, finishOutcome_status]
    rcases h f hf with hp | hfin
    · right
      right
      refine ⟨hp, ?_⟩
      unfold finishedStatus
      cases resp f.id
      · right
        rfl
      · left
        rfl
    · left
      rw [hfin]
  · rw [finishAction_of_ne resp tid f hid]
    left
    rfl

lemma chain_runStates (resp : Nat → Option String) :
    ∀ (tids : List Nat) (st : List BatchFile), postBulkInv resp st →
    List.Chain' (List.Forall₂ allowedStep)
      ((st :: runStates resp tids st).map statusesOf) := by
  intro tids
  induction tids with
  | nil =>
    intro st _
    exact List.chain'_singleton _
  | cons t rest ih =>
    intro st hinv
    show List.Chain' (List.Forall₂ allowedStep)
      (statusesOf st :: statusesOf (finishFile resp t st) ::
        (runStates resp rest (finishFile resp t st)).map statusesOf)
    rw [List.chain'_cons]
    exact ⟨finish_step_allowed resp t st hinv,
      ih (finishFile resp t st) (postBulkInv_finish resp t st hinv)⟩

/-- C2 counterexample: with two enrolled pending files, the bulk update
at the start of processAllFiles puts both into `processing` at once, so
the run reaches a state where the number of simultaneously processing
items is two, refuting "at most one item is Processing at any
instant". -/
theorem batch_two_files_both_processing :
    ¬ (∀ st ∈ runTrace (fun _ => some "out")
        [{ id := 0, status := FileStatus.pending },
         { id := 1, status := FileStatus.pending }],
        countProcessing st ≤ 1) := by
  decide

/-- C2 amended: a run over n distinct pending files does not keep the
processing count at one — the bulk update raises it to n at once, and it
then decreases by one as each file finishes: the counts along the trace
are 0, n, n-1, ..., 0. -/
theorem batch_all_processing_then_countdown (resp : Nat → Option String)
    (fs : List BatchFile) (hnd : (fs.map (·.id)).Nodup)
    (hpend : ∀ f ∈ fs, f.status = FileStatus.pending) :
    (runTrace resp fs).map countProcessing =
      0 :: fs.length ::
        (List.range fs.length).map (fun k => fs.length - (k + 1)) := by
  unfold runTrace
  rw [List.map_cons, List.map_cons]
  have h0 : countProcessing fs = 0 := by
    unfold countProcessing
    refine List.countP_eq_zero.mpr ?_
    intro f hf
    rw [hpend f hf]
    simp
  have h1 : countProcessing (markAllProcessing fs) = fs.length :=
    countProcessing_markAll fs
  have hmem : ∀ tid ∈ fs.map (·.id), ∃ f ∈ markAllProcessing fs,
      f.id = tid ∧ f.status = FileStatus.processing := by
    intro tid htid
    obtain ⟨f, hf, rfl⟩ := List.mem_map.mp htid
    exact ⟨{ f with status := FileStatus.processing },
      List.mem_map.mpr ⟨f, hf, rfl⟩, rfl, rfl⟩
  have hnd' : ((markAllProcessing fs).map (·.id)).Nodup := by
    rw [markAll_map_id]
    exact hnd
  rw [runStates_counts resp (fs.map (·.id)) (markAllProcessing fs) hnd' hnd hmem,
    h0, h1, List.length_map]

/-- C2 witness: the amended count trace for two distinct pending files is
0, 2, 1, 0 — the processing count reaches two. -/
theorem batch_all_processing_then_countdown_holds :
    (runTrace (fun _ => some "out")
        [{ id := 0, status := FileStatus.pending },
         { id := 1, status := FileStatus.pending }]).map countProcessing =
      [0, 2, 1, 0] := by
  have h := batch_all_processing_then_countdown (fun _ => some "out")
    [{ id := 0, status := FileStatus.pending },
     { id := 1, status := FileStatus.pending }] (by decide) (by decide)
  exact h.trans (by decide)

/-- C3 counterexample: running processAllFiles again after a file has
already completed maps it straight back to `processing` — the observed
trace on a completed file is completed, processing, completed, and the
step from completed to processing leaves a terminal state, which the
claimed state machine forbids. -/
theorem batch_second_run_leaves_terminal :
    (runTrace (fun _ => some "again")
        [{ id := 0, status := FileStatus.completed,
           result := some "done" }]).map statusesOf =
      [[FileStatus.completed], [FileStatus.processing],
        [FileStatus.completed]] ∧
    ¬ allowedStep FileStatus.completed FileStatus.processing := by
  decide

/-- C3 amended: within a single run started from all-pending files every
per-item status change follows Pending to Processing to a terminal state
(each adjacent pair of trace states is pointwise an allowed step); the
terminal-state guarantee does not survive a second run, which bulk-marks
completed files as processing again. -/
theorem batch_single_run_status_transitions (resp : Nat → Option String)
    (fs : List BatchFile)
    (hpend : ∀ f ∈ fs, f.status = FileStatus.pending) :
    List.Chain' (List.Forall₂ allowedStep)
      ((runTrace resp fs).map statusesOf) := by
  unfold runTrace
  rw [List.map_cons, List.map_cons, List.chain'_cons]
  constructor
  · refine forall2_statuses_map ?_
    intro f hf
    right
    left
    exact ⟨hpend f hf, rfl⟩
  · exact chain_runStates resp (fs.map (·.id)) (markAllProcessing fs)
      (postBulkInv_markAll resp fs)

/-- C3 witness: the amended transition chain on a one-file pending
session. -/
theorem batch_single_run_status_transitions_holds :
    List.Chain' (List.Forall₂ allowedStep)
      ((runTrace (fun _ => some "r")
        [{ id := 0, status := FileStatus.pending }]).map statusesOf) :=
  batch_single_run_status_transitions (fun _ => some "r")
    [{ id := 0, status := FileStatus.pending }] (by decide)

/-- C5: a failure is recorded on its own item only and the run never
aborts — the final state of a run over distinctly-identified files is the
pointwise per-file outcome, each file's terminal status and result
depending only on its own response; in particular with three files where
only the second fails, the final statuses are completed, error,
completed. -/
theorem batch_run_isolates_failures (resp : Nat → Option String)
    (fs : List BatchFile) (hnd : (fs.map (·.id)).Nodup) :
    (runTrace resp fs).getLast? = some (fs.map (finishOutcome resp)) ∧
    (fs.map (finishOutcome resp)).map (·.status) =
      fs.map fun f => finishedStatus resp f.id := by
  constructor
  · unfold runTrace
    rw [List.getLast?_cons_cons,
      runStates_last resp (fs.map (·.id)) (markAllProcessing fs),
      runFinal_map resp (fs.map (·.id)) hnd (markAllProcessing fs)]
    unfold markAllProcessing
    rw [List.map_map]
    refine congrArg some (List.map_congr_left ?_)
    intro f hf
    show (if ({ f with status := FileStatus.processing } : BatchFile).id ∈
        fs.map (·.id)
      then finishOutcome resp { f with status := FileStatus.processing }
      else { f with status := FileStatus.processing }) = finishOutcome resp f
    rw [if_pos (List.mem_map.mpr ⟨f, hf, rfl⟩)]
    exact finishOutcome_markProc resp f
  · rw [List.map_map]
    refine List.map_congr_left ?_
    intro f _
    exact finishOutcome_status resp f

/-- C5 witness: three files where only the second one's conversion fails
end as completed, error with the fixed message, completed — the middle
failure aborts nothing. -/
theorem batch_run_isolates_failures_holds :
    (runTrace (fun i => if i = 2 then none else some "ok")
        [{ id := 1, status := FileStatus.pending },
         { id := 2, status := FileStatus.pending },
         { id := 3, status := FileStatus.pending }]).getLast? =
      some
        [{ id := 1, status := FileStatus.completed, result := some "ok" },
         { id := 2, status := FileStatus.error,
           errMsg := some "Failed to process" },
         { id := 3, status := FileStatus.completed, result := some "ok" }] := by
  have h := (batch_run_isolates_failures (fun i => if i = 2 then none else some "ok")
    [{ id := 1, status := FileStatus.pending },
     { id := 2, status := FileStatus.pending },
     { id := 3, status := FileStatus.pending }] (by decide)).1
  exact h.trans (by decide)

/-- C8 counterexample: a settings mutation issued while a run is in
progress is not rejected — the handler returns the updated settings as a
success, never an error. -/
theorem batch_settings_mutation_not_rejected :
    settingsChange true (SettingsUpdate.setQuality 50) defaultBatchSettings =
      Except.ok { defaultBatchSettings with quality := 50 } ∧
    (settingsChange true (SettingsUpdate.setQuality 50)
        defaultBatchSettings).isOk = true :=
  ⟨rfl, rfl⟩

/-- C8 amended: mutating the settings mid-run is silently accepted (the
controls are never disabled and no error path exists), while the run in
flight keeps using the settings captured at its start: every request it
issues carries the run-start format, quality, width and height, so a
mutation never applies to some-but-not-all items of the current run. -/
theorem batch_settings_mutation_silent_run_snapshot (p : Bool)
    (s : BatchSettings) (u : SettingsUpdate) (items : List String)
    (r : ConvertRequest) (hr : r ∈ runRequests s items) :
    settingsChange p u s = Except.ok (applySettingsUpdate u s) ∧
    r.format = some s.format ∧ r.quality = some s.quality ∧
    r.width = s.width ∧ r.height = s.height := by
  obtain ⟨b, hb, rfl⟩ := List.mem_map.mp hr
  exact ⟨rfl, rfl, rfl, rfl, rfl⟩

/-- C8 witness: the amended theorem at a concrete mid-run mutation and a
concrete request of the run. -/
theorem batch_settings_mutation_silent_run_snapshot_holds :
    settingsChange true (SettingsUpdate.setQuality 50) defaultBatchSettings =
      Except.ok
        (applySettingsUpdate (SettingsUpdate.setQuality 50)
          defaultBatchSettings) ∧
    (requestFor defaultBatchSettings "img").format = some "webp" ∧
    (requestFor defaultBatchSettings "img").quality = some 85 := by
  have h := batch_settings_mutation_silent_run_snapshot true
    defaultBatchSettings (SettingsUpdate.setQuality 50) ["img"]
    (requestFor defaultBatchSettings "img") (by decide)
  exact ⟨h.1, h.2.1, h.2.2.1⟩

end ImgEditor
